import Mathlib

/-!
Verification of the multi-connection download manager (`downloadManager.js`).

The engine splits each resource into `NUM_CHUNKS = 8` byte ranges fetched in
parallel, persists the registry to `downloads.json`, and admits at most
`MAX_CONCURRENT_DOWNLOADS = 3` entries to the `downloading` state.

Modelling conventions:
* JavaScript numbers that can be `NaN` are modelled as `Option Nat`
  (`none` = `NaN`); JS comparisons on `NaN` are false, mirrored by the
  `j`-prefixed helpers.
* Download ids are `Date.now()` timestamps; we model them as `Nat`
  (the source stores their decimal string, which is order-isomorphic for
  fixed-width timestamps).
* The fields named `end` in the source are called `stop` here (`end` is a
  Lean keyword).
* The filesystem is modelled by the data the source reads from it:
  directory existence and part-file sizes / contents.
-/

namespace Dl

/-- `NUM_CHUNKS` (downloadManager.js line 13). -/
def NUM_CHUNKS : Nat := 8

/-- `MAX_CONCURRENT_DOWNLOADS` (downloadManager.js line 14). -/
def MAX_CONCURRENT_DOWNLOADS : Nat := 3

/-- Entry and chunk status strings used by the source. -/
inductive Status where
  | pending
  | queued
  | downloading
  | paused
  | assembling
  | complete
  | error
deriving DecidableEq, Repr

/-- One chunk record, as pushed by `createDownload` (lines 152-155).
`stop` models the source field `end`; bounds are `Option Nat` because the
source computes them with JS arithmetic that may produce `NaN`. -/
structure Chunk where
  id : Nat
  start : Option Nat
  stop : Option Nat
  status : Status
  downloaded : Nat
  currentSpeed : Nat
  lastTimestamp : Nat
  lastDownloadedSize : Nat
deriving DecidableEq, Repr

/-- `chunkSize = Math.ceil(totalSize / NUM_CHUNKS)` (line 148), for a
non-`NaN` size `S`. -/
def chunkSize (S : Nat) : Nat := (S + 7) / 8

/-- `start = i * chunkSize` (line 150). -/
def chunkStart (S i : Nat) : Nat := i * chunkSize S

/-- `end = (i === NUM_CHUNKS - 1) ? totalSize - 1 : (i + 1) * chunkSize - 1`
(line 151): only the LAST chunk is clamped to `S - 1`. -/
def chunkStop (S i : Nat) : Nat :=
  if i = NUM_CHUNKS - 1 then S - 1 else (i + 1) * chunkSize S - 1

/-- The spec's per-chunk formula `end_i = min((i+1)·c − 1, S − 1)`
(spec §3, Chunk). Stated from the spec's words, for comparison with
`chunkStop`, which is translated from the source. -/
def specChunkStop (S i : Nat) : Nat :=
  min ((i + 1) * chunkSize S - 1) (S - 1)

/-- The chunk record built at creation for chunk `i` of a download whose
`totalSize` parsed to a number `S` (lines 149-156). -/
def mkChunk (S i : Nat) : Chunk :=
  { id := i, start := some (chunkStart S i), stop := some (chunkStop S i),
    status := .pending, downloaded := 0, currentSpeed := 0,
    lastTimestamp := 0, lastDownloadedSize := 0 }

/-- The chunk list built by the creation loop for a numeric `totalSize`. -/
def mkChunksNat (S : Nat) : List Chunk := (List.range NUM_CHUNKS).map (mkChunk S)

/-- The chunk list built by the creation loop (lines 147-156).  When
`totalSize` is `NaN` (`none`), every arithmetic bound is `NaN`. -/
def mkChunks : Option Nat → List Chunk
  | some S => mkChunksNat S
  | none =>
      (List.range NUM_CHUNKS).map fun i =>
        { id := i, start := none, stop := none,
          status := .pending, downloaded := 0, currentSpeed := 0,
          lastTimestamp := 0, lastDownloadedSize := 0 }

/-- One download entry, as built by `createDownload` (lines 158-171).
`totalSize` is `none` when `parseInt` of the `Content-Length` header gave
`NaN`; `tempDir` is `none` after assembly nulls it (line 278). -/
structure Entry where
  id : Nat
  url : String
  filename : String
  filePath : String
  tempDir : Option String
  totalSize : Option Nat
  downloadedSize : Nat
  status : Status
  currentSpeed : Nat
  eta : Option Nat
  error : Option String
  chunks : List Chunk
deriving DecidableEq, Repr

/-- The registry `downloadsDb`: an insertion-ordered map from id to entry. -/
abbrev Db := List (Nat × Entry)

/-- `downloadsDb.get(id)`. -/
def dbLookup (db : Db) (id : Nat) : Option Entry :=
  (db.find? fun p => decide (p.1 = id)).map Prod.snd

/-- `downloadsDb.set(id, e)`: overwrite in place if the key exists,
otherwise append (JS `Map` insertion-order semantics). -/
def dbSet (db : Db) (id : Nat) (e : Entry) : Db :=
  if db.any (fun p => decide (p.1 = id)) then
    db.map fun p => if p.1 = id then (p.1, e) else p
  else db ++ [(id, e)]

/-- `Array.from(downloadsDb.values())`. -/
def dbValues (db : Db) : List Entry := db.map Prod.snd

/-- Replace entry `id` by `f` of it (in-place mutation of a fetched entry). -/
def updateEntry (db : Db) (id : Nat) (f : Entry → Entry) : Db :=
  db.map fun p => if p.1 = id then (p.1, f p.2) else p

/-- Mutate chunk `cid` of entry `did` in place. -/
def updateChunk (db : Db) (did cid : Nat) (f : Chunk → Chunk) : Db :=
  updateEntry db did fun e =>
    { e with chunks := e.chunks.map fun c => if c.id = cid then f c else c }

/-- `activeChunkStreams`: downloadId ↦ chunk ids with registered streams
(the stream handle pair itself carries no state we need). -/
abbrev Streams := List (Nat × List Nat)

/-- `activeChunkStreams.set(id, new Map())` (line 104). -/
def streamsSet (st : Streams) (id : Nat) : Streams :=
  if st.any (fun p => decide (p.1 = id)) then
    st.map fun p => if p.1 = id then (p.1, ([] : List Nat)) else p
  else st ++ [(id, ([] : List Nat))]

/-- `activeChunkStreams.get(did).delete(cid)` (lines 243, 250); a no-op when
the download has no stream map (the handlers always run while it does). -/
def streamsDeleteChunk (st : Streams) (did cid : Nat) : Streams :=
  st.map fun p => if p.1 = did then (p.1, p.2.filter fun c => decide (c ≠ cid)) else p

/-- `activeChunkStreams.delete(did)` (line 318). -/
def streamsDelete (st : Streams) (did : Nat) : Streams :=
  st.filter fun p => decide (p.1 ≠ did)

/-- Outbound events (`io.emit` / `socket.emit`).  The `download-error`
payload's `id` is a string because create-time failures use the URL as the
id (line 182) while entry-level failures use the entry id. -/
inductive Event where
  | downloadList (entries : List Entry)
  | downloadStarted (e : Entry)
  | downloadComplete (id : Nat) (filePath : String)
  | downloadError (id : String) (error : String)
deriving DecidableEq, Repr

/-- Engine state: the registry, the active-stream map, and the last
contents written to the store file `downloads.json` by `saveDb`. -/
structure Sys where
  db : Db
  streams : Streams
  store : Db
deriving DecidableEq, Repr

/-- Entries whose status is `downloading`. -/
def countDownloading (db : Db) : Nat :=
  (db.filter fun p => decide (p.2.status = Status.downloading)).length

/-- The promotion loop of `tryToStartQueuedDownloads` (lines 101-115) with
`slots ≥ 1` available: promote each queued entry in registration order,
decrement, break when no slot is left.  Returns the new registry and the
promoted entries. -/
def promote : Db → Nat → Db × List Entry
  | [], _ => ([], [])
  | (i, e) :: rest, slots =>
      if e.status = Status.queued then
        let e1 := { e with status := Status.downloading }
        if slots ≤ 1 then ((i, e1) :: rest, [e1])
        else
          let r := promote rest (slots - 1)
          ((i, e1) :: r.1, e1 :: r.2)
      else
        let r := promote rest slots
        ((i, e) :: r.1, r.2)

/-- `tryToStartQueuedDownloads` (lines 96-117): count active downloads;
return at once if no slot is free (before the final `saveDb`); otherwise
promote queued entries in registration order, give each a fresh stream map,
emit `download-started`, and persist.  The spawned `downloadChunk` calls
(lines 107-111) are modelled as separate transitions. -/
def tryToStartQueuedDownloads (s : Sys) : Sys × List Event :=
  let active := countDownloading s.db
  if MAX_CONCURRENT_DOWNLOADS ≤ active then (s, [])
  else
    let r := promote s.db (MAX_CONCURRENT_DOWNLOADS - active)
    let streams1 := r.2.foldl (fun st e => streamsSet st e.id) s.streams
    ({ db := r.1, streams := streams1, store := r.1 }, r.2.map Event.downloadStarted)

/-- `parseInt(x, 10)` on a header value: the longest digit prefix, `none`
(`NaN`) when there is none or the header is absent. -/
def jsParseInt (v : String) : Option Nat := (v.takeWhile Char.isDigit).toNat?

/-- `parseInt(headResponse.headers[content-length], 10)` (line 128). -/
def parseContentLength : Option String → Option Nat
  | none => none
  | some v => jsParseInt v

/-- The HEAD response headers `createDownload` inspects. -/
structure HeadHeaders where
  contentLength : Option String
  acceptRanges : Option String
deriving DecidableEq, Repr

/-- `path.basename(new URL(url).pathname) or download-<id>` (lines 134-135),
modelled as the last `/`-segment of the URL before any query string. -/
def urlFilename (url : String) (downloadId : Nat) : String :=
  let base := ((url.takeWhile fun c => c ≠ '?').splitOn "/").getLastD ""
  if base = "" then "download-" ++ toString downloadId else base

/-- The entry `createDownload` builds (lines 158-171): queued, no error,
zero progress, chunks computed from the parsed (possibly `NaN`) size. -/
def createdEntry (now : Nat) (url : String) (hd : HeadHeaders) : Entry :=
  let totalSize := parseContentLength hd.contentLength
  let filename := urlFilename url now
  { id := now, url := url, filename := filename,
    filePath := "DOWNLOAD_FOLDER/" ++ filename,
    tempDir := some ("TEMP_FOLDER/temp_" ++ toString now),
    totalSize := totalSize, downloadedSize := 0, status := Status.queued,
    currentSpeed := 0, eta := none, error := none,
    chunks := mkChunks totalSize }

/-- `createDownload(url)` (lines 122-184) with `Date.now() = now`.  The
content length is parsed first (line 128, `NaN` on absence); only a missing
`Accept-Ranges: bytes` throws (lines 130-132), reaching the catch block
that emits one `download-error` keyed by the URL.  Otherwise an entry is
built, stored, persisted, `download-list` is emitted and the scheduler
runs.  There is no check that the parsed size is a number. -/
def createDownload (now : Nat) (url : String) (hd : HeadHeaders) (s : Sys) :
    Sys × List Event :=
  if hd.acceptRanges ≠ some "bytes" then
    (s, [Event.downloadError url
          "Failed to start download: Server does not support resumable (multi-part) downloads."])
  else
    let db1 := dbSet s.db now (createdEntry now url hd)
    let s1 : Sys := { db := db1, streams := s.streams, store := db1 }
    let r := tryToStartQueuedDownloads s1
    (r.1, Event.downloadList (dbValues db1) :: r.2)

/-- Forget an entry's status (set it to a fixed value).  Used to state
that the scheduler changes nothing about an entry except its status. -/
def eraseStatus (e : Entry) : Entry := { e with status := Status.queued }

/-- `startOrResumeDownload` (lines 191-199): absent id is a pure no-op;
otherwise set `queued`, clear `error`, persist, emit `download-list`,
run the scheduler. -/
def startOrResumeDownload (id : Nat) (s : Sys) : Sys × List Event :=
  match dbLookup s.db id with
  | none => (s, [])
  | some e =>
      let db1 := dbSet s.db id { e with status := Status.queued, error := none }
      let s1 : Sys := { db := db1, streams := s.streams, store := db1 }
      let r := tryToStartQueuedDownloads s1
      (r.1, Event.downloadList (dbValues db1) :: r.2)

/-- `pauseDownload` (lines 306-328): absent id is a pure no-op; a status
other than `downloading`/`queued` returns after the lookup; otherwise the
entry is paused, its streams destroyed and deregistered, `downloading`
chunks paused with all chunk speeds zeroed, state persisted,
`download-list` emitted, and the scheduler run. -/
def pauseDownload (id : Nat) (s : Sys) : Sys × List Event :=
  match dbLookup s.db id with
  | none => (s, [])
  | some e =>
      if e.status ≠ Status.downloading ∧ e.status ≠ Status.queued then (s, [])
      else
        let e1 :=
          { e with
            status := Status.paused
            chunks := e.chunks.map fun c =>
              { c with
                status := if c.status = Status.downloading then Status.paused
                          else c.status
                currentSpeed := 0 } }
        let db1 := dbSet s.db id e1
        let s1 : Sys := { db := db1, streams := streamsDelete s.streams id,
                          store := db1 }
        let r := tryToStartQueuedDownloads s1
        (r.1, Event.downloadList (dbValues db1) :: r.2)

/-- JS `a + d` where `a` may be `NaN`. -/
def jadd (a : Option Nat) (d : Nat) : Option Nat := a.map (· + d)

/-- JS `a >= b` where either side may be `NaN` (any comparison with `NaN`
is false). -/
def jge (a b : Option Nat) : Bool :=
  match a, b with
  | some x, some y => decide (y ≤ x)
  | _, _ => false

/-- What the synchronous prologue of `downloadChunk` decides to do. -/
inductive ChunkAction where
  | noOp
  | completeNoRequest
  | request (rangeStart rangeEnd : Option Nat)
deriving DecidableEq, Repr

/-- `checkIfComplete`'s synchronous part (lines 267-273): when every chunk
is `complete`, the entry enters `assembling`; the awaited assembly result
is `onAssemblyFinished`. -/
def checkIfCompleteSync (s : Sys) (did : Nat) : Sys :=
  match dbLookup s.db did with
  | none => s
  | some e =>
      if e.chunks.all (fun c => decide (c.status = Status.complete)) then
        { s with db := updateEntry s.db did fun e => { e with status := Status.assembling } }
      else s

/-- The synchronous prologue of `downloadChunk` (lines 201-226) with the
part file currently `partSize` bytes on disk and `Date.now() = now`:
guards, `chunk.downloaded := size-on-disk`, speed-window reset, then
`rangeStart := chunk.start + downloaded`; if `rangeStart >= chunk.end`
(line 213, NOTE `>=`, not `>`) mark the chunk complete with no request and
run the completion check; otherwise issue
`Range: bytes=<rangeStart>-<chunk.end>` (the response continuation is
modelled by the stream transitions below). -/
def downloadChunkInit (s : Sys) (did cid partSize now : Nat) : Sys × ChunkAction :=
  match dbLookup s.db did with
  | none => (s, ChunkAction.noOp)
  | some e =>
      if e.status ≠ Status.downloading then (s, ChunkAction.noOp)
      else
        match e.chunks.find? (fun c => decide (c.id = cid)) with
        | none => (s, ChunkAction.noOp)
        | some c =>
            let c1 :=
              { c with
                downloaded := partSize
                status := Status.downloading
                lastTimestamp := now
                lastDownloadedSize := partSize }
            let rangeStart := jadd c.start partSize
            if jge rangeStart c.stop then
              let db1 := updateChunk s.db did cid fun _ =>
                { c1 with status := Status.complete, currentSpeed := 0 }
              (checkIfCompleteSync { s with db := db1 } did, ChunkAction.completeNoRequest)
            else
              ({ s with db := updateChunk s.db did cid fun _ => c1 },
                ChunkAction.request rangeStart c.stop)

/-- The `end` handler of a chunk's body stream (lines 239-246): if the
entry left `downloading` (pause), do nothing; else mark the chunk
`complete`, deregister, persist, and run the completion check. -/
def onStreamEnd (s : Sys) (did cid : Nat) : Sys × List Event :=
  match dbLookup s.db did with
  | none => (s, [])
  | some e =>
      if e.status = Status.downloading then
        let db1 := updateChunk s.db did cid fun c =>
          { c with status := Status.complete, currentSpeed := 0 }
        let s1 : Sys := { db := db1, streams := streamsDeleteChunk s.streams did cid,
                          store := db1 }
        (checkIfCompleteSync s1 did, [])
      else (s, [])

/-- The `error` handler of a chunk's body stream (lines 247-252): mark the
chunk `error` with speed 0, deregister its streams, persist — and nothing
else: no entry-status change, no event, no scheduler call. -/
def onStreamError (s : Sys) (did cid : Nat) : Sys × List Event :=
  let db1 := updateChunk s.db did cid fun c =>
    { c with status := Status.error, currentSpeed := 0 }
  ({ db := db1, streams := streamsDeleteChunk s.streams did cid, store := db1 }, [])

/-- The catch block of `downloadChunk` (lines 254-264): request-time
failure marks the chunk and the entry `error`, records the message,
persists, emits one `download-error`, and runs the scheduler. -/
def onChunkRequestError (s : Sys) (did cid : Nat) (msg : String) : Sys × List Event :=
  let emsg := "Chunk " ++ toString cid ++ " failed: " ++ msg
  let db1 := updateEntry s.db did fun e =>
    { e with
      status := Status.error
      error := some emsg
      chunks := e.chunks.map fun c =>
        if c.id = cid then { c with status := Status.error, currentSpeed := 0 } else c }
  let s1 : Sys := { db := db1, streams := s.streams, store := db1 }
  let r := tryToStartQueuedDownloads s1
  (r.1, Event.downloadError (toString did) emsg :: r.2)

/-- On-disk part files of one download: part index ↦ file contents
(`none` = the file does not exist). -/
abbrev Parts := Nat → Option (List Nat)

/-- `assembleFile` (lines 295-304): stream each `part_<i>` into the final
file in chunk-index order.  A missing part makes `createReadStream` error
and the pipeline reject; a present part of ANY size streams fine — sizes
are never checked. -/
def assembleFile : List Chunk → Parts → Except Unit (List Nat)
  | [], _ => Except.ok []
  | c :: rest, parts =>
      match parts c.id with
      | none => Except.error ()
      | some bytes =>
          match assembleFile rest parts with
          | Except.ok tail => Except.ok (bytes ++ tail)
          | Except.error u => Except.error u

/-- Result of the assembly phase of `checkIfComplete` on one entry. -/
structure AssemblyResult where
  entry : Entry
  finalFile : Option (List Nat)
  tempDirRemoved : Bool
  events : List Event
deriving Repr

/-- The await-and-continue part of `checkIfComplete` (lines 274-289): on
success remove `tempDir`, null it, set `complete`; on failure set `error`
with message "Failed to assemble file." and leave `tempDir` in place. -/
def finishAssembly (e : Entry) (parts : Parts) : AssemblyResult :=
  match assembleFile e.chunks parts with
  | Except.ok bytes =>
      { entry := { e with tempDir := none, status := Status.complete, currentSpeed := 0 },
        finalFile := some bytes, tempDirRemoved := true,
        events := [Event.downloadComplete e.id e.filePath] }
  | Except.error _ =>
      { entry := { e with status := Status.error, error := some "Failed to assemble file." },
        finalFile := none, tempDirRemoved := false,
        events := [Event.downloadError (toString e.id) "Failed to assemble file."] }

/-- The tail of `checkIfComplete` after the assembly await: store the
updated entry, persist, emit, and run the scheduler (lines 274-292). -/
def onAssemblyFinished (s : Sys) (did : Nat) (parts : Parts) : Sys × List Event :=
  match dbLookup s.db did with
  | none => (s, [])
  | some e =>
      let r := finishAssembly e parts
      let db1 := dbSet s.db did r.entry
      let s1 : Sys := { db := db1, streams := s.streams, store := db1 }
      let t := tryToStartQueuedDownloads s1
      (t.1, r.events ++ t.2)

/-- The `resume-all-downloads` handler (lines 421-431). -/
def resumeAllDownloads (s : Sys) : Sys × List Event :=
  let db1 := s.db.map fun p =>
    if p.2.status = Status.paused then (p.1, { p.2 with status := Status.queued, error := none })
    else p
  let s1 : Sys := { db := db1, streams := s.streams, store := db1 }
  let r := tryToStartQueuedDownloads s1
  (r.1, Event.downloadList (dbValues db1) :: r.2)

/-- What the engine reads from the filesystem at load time. -/
structure Fs where
  dirExists : String → Bool
  fileSize : String → Option Nat

/-- `getFilesize` (lines 38-43): the file's size, or 0 when absent. -/
def getFilesize (fs : Fs) (p : String) : Nat := (fs.fileSize p).getD 0

/-- `path.join(tempDir, part_<i>)`. -/
def partPath (tempDir : String) (i : Nat) : String :=
  tempDir ++ "/part_" ++ toString i

/-- Recovery normalization of one persisted entry in `loadDb`
(lines 50-70): `downloading|queued ↦ queued`; then, when the entry has a
temp directory (JS: `download.chunks && download.tempDir`; arrays are
always truthy), each chunk's `downloaded` becomes the on-disk part size if
the directory exists and 0 otherwise, `downloading` chunks become
`queued`, and `downloadedSize` is recomputed as the running sum. -/
def loadDbEntry (fs : Fs) (e : Entry) : Entry :=
  let e1 := if e.status = Status.downloading ∨ e.status = Status.queued then
              { e with status := Status.queued }
            else e
  match e1.tempDir with
  | none => e1
  | some td =>
      let newChunks := e1.chunks.map fun c =>
        let c1 := if fs.dirExists td then
                    { c with downloaded := getFilesize fs (partPath td c.id) }
                  else { c with downloaded := 0 }
        if c1.status = Status.downloading then { c1 with status := Status.queued } else c1
      { e1 with
        chunks := newChunks
        downloadedSize := (newChunks.map Chunk.downloaded).sum }

/-- `loadDb` (lines 45-77) on a parsed store: normalize each `(id, entry)`
pair and insert it in order. -/
def loadDb (fs : Fs) (entries : List (Nat × Entry)) : Db :=
  entries.map fun p => (p.1, loadDbEntry fs p.2)

/-- Filesystem operations a store write could perform. -/
inductive FsOp where
  | write (path : String) (data : Db)
  | rename (src dst : String)
deriving DecidableEq, Repr

/-- `DB_PATH` (line 21). -/
def DB_PATH : String := "DOWNLOAD_FOLDER/downloads.json"

/-- `saveDb` (lines 79-82): one direct `fs.writeFileSync(DB_PATH, ...)` of
the serialized registry — nothing else. -/
def saveDbTrace (db : Db) : List FsOp := [FsOp.write DB_PATH db]

/-- The spec's words (§4.1): a total-replace save writes the data to a
sibling temp path and then renames it over the store file.  Stated for
comparison with `saveDbTrace`, which is translated from the source. -/
def specAtomicReplace (t : List FsOp) : Prop :=
  ∃ tmp data, tmp ≠ DB_PATH ∧ t = [FsOp.write tmp data, FsOp.rename tmp DB_PATH]

/-- One `download-progress` record (lines 350-360).  `progress` and `eta`
are floats in the source; they are modelled with integer division, `none`
standing for JS `null`/`NaN` — no claim depends on their values. -/
structure Progress where
  id : Nat
  progress : Option Nat
  downloaded : Nat
  totalSize : Option Nat
  speed : Nat
  eta : Option Nat
  filename : String
  status : Status
  error : Option String
deriving DecidableEq, Repr

/-- The per-entry mutation of `getAggregatedProgress` (lines 337-348):
recompute `downloadedSize` and `currentSpeed` from the chunks and derive
`eta`. -/
def aggregateEntry (e : Entry) : Entry :=
  let totalDownloaded := (e.chunks.map Chunk.downloaded).sum
  let totalSpeed := (e.chunks.map Chunk.currentSpeed).sum
  { e with
    downloadedSize := totalDownloaded
    currentSpeed := totalSpeed
    eta := match e.totalSize with
      | some sz => if 0 < totalSpeed then some ((sz - totalDownloaded) / totalSpeed) else none
      | none => none }

/-- The record pushed for one `downloading` entry (lines 350-360). -/
def progressOf (e : Entry) : Progress :=
  { id := e.id,
    progress := e.totalSize.map fun sz => e.downloadedSize * 100 / sz,
    downloaded := e.downloadedSize, totalSize := e.totalSize,
    speed := e.currentSpeed, eta := e.eta, filename := e.filename,
    status := e.status, error := e.error }

/-- `getAggregatedProgress` (lines 333-364): for each entry in
`downloading`, update its aggregates in place and push a progress record;
entries in any other status — including those with errored chunks — are
neither touched nor reported. -/
def getAggregatedProgress (db : Db) : Db × List Progress :=
  let db1 := db.map fun p =>
    if p.2.status = Status.downloading then (p.1, aggregateEntry p.2) else p
  (db1, db1.filterMap fun p =>
    if p.2.status = Status.downloading then some (progressOf p.2) else none)

/-- Every transition of the engine that can touch an entry's status,
as dispatched from the socket handlers (lines 398-432), the chunk stream
callbacks, and the scheduler. -/
inductive Op where
  | createCmd (now : Nat) (url : String) (hd : HeadHeaders)
  | pauseCmd (id : Nat)
  | resumeCmd (id : Nat)
  | chunkInit (did cid partSize now : Nat)
  | requestError (did cid : Nat) (msg : String)
  | streamEnd (did cid : Nat)
  | streamError (did cid : Nat)
  | assemblyFinished (did : Nat) (parts : Parts)
  | resumeAll
  | schedule

/-- Apply one transition. `pause-all-downloads` (lines 413-419) is a fold
of `pauseCmd` over the registry and needs no separate constructor. -/
def applyOp (s : Sys) : Op → Sys × List Event
  | Op.createCmd n u hd => createDownload n u hd s
  | Op.pauseCmd i => pauseDownload i s
  | Op.resumeCmd i => startOrResumeDownload i s
  | Op.chunkInit d c ps n => ((downloadChunkInit s d c ps n).1, [])
  | Op.requestError d c m => onChunkRequestError s d c m
  | Op.streamEnd d c => onStreamEnd s d c
  | Op.streamError d c => onStreamError s d c
  | Op.assemblyFinished d p => onAssemblyFinished s d p
  | Op.resumeAll => resumeAllDownloads s
  | Op.schedule => tryToStartQueuedDownloads s

/-- Reachable engine states: boot (`init`, lines 377-381: `loadDb` then one
scheduler pass over empty stream state) followed by any transitions. -/
inductive Reachable : Sys → Prop where
  | boot (entries : List (Nat × Entry)) (fs : Fs) :
      Reachable (tryToStartQueuedDownloads
        { db := loadDb fs entries, streams := [], store := loadDb fs entries }).1
  | step (s : Sys) (o : Op) : Reachable s → Reachable (applyOp s o).1

/-- The spec-side claim predicate for C7 (§4.6): every part file's size
equals its chunk's assigned range length `end − start + 1`.  Stated from
the spec's words, for comparison with `assembleFile`. -/
def specSizesMatch (chunks : List Chunk) (parts : Parts) : Bool :=
  chunks.all fun c =>
    match parts c.id, c.start, c.stop with
    | some bytes, some a, some b => decide (bytes.length = b - a + 1)
    | _, _, _ => false

/-! ### Sample data used by the concrete counterexamples and witnesses -/

/-- A chunk currently downloading bytes `[0, 9]`, 3 bytes in. -/
def sampleChunk3 : Chunk :=
  { id := 0, start := some 0, stop := some 9, status := Status.downloading,
    downloaded := 3, currentSpeed := 5, lastTimestamp := 0, lastDownloadedSize := 0 }

/-- A downloading entry owning `sampleChunk3`. -/
def sampleEntry3 : Entry :=
  { id := 1, url := "http://h/a.bin", filename := "a.bin",
    filePath := "DOWNLOAD_FOLDER/a.bin", tempDir := some "TEMP_FOLDER/temp_1",
    totalSize := some 10, downloadedSize := 3, status := Status.downloading,
    currentSpeed := 5, eta := none, error := none, chunks := [sampleChunk3] }

/-- A system with `sampleEntry3` downloading and its stream registered. -/
def sampleSys3 : Sys :=
  { db := [(1, sampleEntry3)], streams := [(1, [0])], store := [(1, sampleEntry3)] }

/-- HEAD headers advertising ranges with a well-formed length. -/
def sampleHeaders : HeadHeaders :=
  { contentLength := some "16", acceptRanges := some "bytes" }

/-- HEAD headers advertising ranges but no `Content-Length` at all. -/
def headersNoLength : HeadHeaders :=
  { contentLength := none, acceptRanges := some "bytes" }

/-- An entry whose part files are all fetched: chunks of a 16-byte body. -/
def sampleEntry7 : Entry :=
  { id := 2, url := "http://h/b.bin", filename := "b.bin",
    filePath := "DOWNLOAD_FOLDER/b.bin", tempDir := some "TEMP_FOLDER/temp_2",
    totalSize := some 16, downloadedSize := 16, status := Status.assembling,
    currentSpeed := 0, eta := none, error := none, chunks := mkChunksNat 16 }

/-- Part files for `sampleEntry7`, each exactly its 2-byte range. -/
def sampleParts7 : Parts := fun i => if i < 8 then some [i, i] else none

/-- An entry whose chunk is one byte, `[0, 0]`, nothing on disk yet. -/
def sampleEntry2 : Entry :=
  { sampleEntry3 with
    chunks := [{ sampleChunk3 with
                 stop := some 0
                 downloaded := 0
                 currentSpeed := 0
                 status := Status.pending }] }

/-- A system with `sampleEntry2` admitted and downloading. -/
def sampleSys2 : Sys :=
  { db := [(1, sampleEntry2)], streams := [(1, [])], store := [(1, sampleEntry2)] }

/-- A load-time filesystem: the temp dir exists, `part_0` holds 4 bytes. -/
def sampleFs : Fs :=
  { dirExists := fun p => p == "TEMP_FOLDER/temp_1",
    fileSize := fun p => if p == "TEMP_FOLDER/temp_1/part_0" then some 4 else none }

/-! ### Chunk-range arithmetic (claim C1) -/

lemma chunkSize_pos (S : Nat) (hS : 1 ≤ S) : 1 ≤ chunkSize S := by
  unfold chunkSize; omega

/-- Bucketing: any `b < 7·c` lies in exactly one of the seven intervals
`[i·c, (i+1)·c)` with `i < 7`. -/
lemma exists_bucket (c b : Nat) (hb : b < 7 * c) :
    ∃ i, i < 7 ∧ i * c ≤ b ∧ b < (i + 1) * c := by
  by_cases h1 : b < c
  · exact ⟨0, by omega, by omega, by omega⟩
  by_cases h2 : b < 2 * c
  · exact ⟨1, by omega, by omega, by omega⟩
  by_cases h3 : b < 3 * c
  · exact ⟨2, by omega, by omega, by omega⟩
  by_cases h4 : b < 4 * c
  · exact ⟨3, by omega, by omega, by omega⟩
  by_cases h5 : b < 5 * c
  · exact ⟨4, by omega, by omega, by omega⟩
  by_cases h6 : b < 6 * c
  · exact ⟨5, by omega, by omega, by omega⟩
  exact ⟨6, by omega, by omega, by omega⟩

/-- Consecutive computed ranges are separated whenever `7·c < S`. -/
lemma chunkStop_lt_chunkStart (S i j : Nat) (h7 : 7 * chunkSize S < S)
    (hij : i < j) (hj : j < NUM_CHUNKS) : chunkStop S i < chunkStart S j := by
  have hi7 : i ≠ NUM_CHUNKS - 1 := by unfold NUM_CHUNKS at hj ⊢; omega
  unfold chunkStop chunkStart
  rw [if_neg hi7]
  have hmul : (i + 1) * chunkSize S ≤ j * chunkSize S :=
    Nat.mul_le_mul_right (chunkSize S) (by omega)
  have hle7 : (i + 1) * chunkSize S ≤ 7 * chunkSize S :=
    Nat.mul_le_mul_right (chunkSize S) (by unfold NUM_CHUNKS at hj; omega)
  have hpos : 1 ≤ S := by omega
  have hc := chunkSize_pos S hpos
  have h1 : 1 ≤ (i + 1) * chunkSize S := le_trans hc (Nat.le_mul_of_pos_left _ (by omega))
  omega

/-- Every computed range stays within `[0, S-1]` when `7·c < S`. -/
lemma chunkStop_le (S i : Nat) (h7 : 7 * chunkSize S < S) (hi : i < NUM_CHUNKS) :
    chunkStop S i ≤ S - 1 := by
  unfold chunkStop
  by_cases h : i = NUM_CHUNKS - 1
  · rw [if_pos h]
  · rw [if_neg h]
    have hle7 : (i + 1) * chunkSize S ≤ 7 * chunkSize S :=
      Nat.mul_le_mul_right (chunkSize S) (by unfold NUM_CHUNKS at hi h; omega)
    omega

/-- C1 . For every totalSize `S ≥ 1` the claim's per-chunk min-clamped end
formula, the partition property, and `start ≤ end` are all asserted; at
`S = 9` the code's range for chunk 4 differs from the claimed min formula,
the code's chunk 7 has `start = 14 > end = 8`, and even the claimed min
formula gives chunk 5 `start = 10 > end = 8`, so the claim fails. -/
theorem chunk_ranges_claim_fails_at_9 :
    chunkStop 9 4 ≠ specChunkStop 9 4 ∧
    ¬ chunkStart 9 7 ≤ chunkStop 9 7 ∧
    ¬ chunkStart 9 5 ≤ specChunkStop 9 5 ∧
    chunkStop 9 4 > 9 - 1 := by decide

/-- C1 (amended). Only the last chunk's end is clamped:
`end_i = (i+1)·c − 1` for `i < 7` and `end_7 = S − 1`.  For every `S ≥ 1`
with `7·⌈S/8⌉ < S` (in particular every multiple of 8 and every `S ≥ 57`)
the eight ranges partition `[0, S−1]` exactly: their union is `[0, S−1]`,
every chunk has `start ≤ end`, and they are pairwise disjoint. -/
theorem chunk_ranges_partition (S : Nat) (hS : 1 ≤ S) (h7 : 7 * chunkSize S < S) :
    (∀ b, b < S ↔ ∃ i, i < NUM_CHUNKS ∧ chunkStart S i ≤ b ∧ b ≤ chunkStop S i) ∧
    (∀ i, i < NUM_CHUNKS → chunkStart S i ≤ chunkStop S i) ∧
    (∀ i j b, i < NUM_CHUNKS → j < NUM_CHUNKS → i ≠ j →
      chunkStart S i ≤ b → b ≤ chunkStop S i →
      ¬ (chunkStart S j ≤ b ∧ b ≤ chunkStop S j)) := by
  have hc := chunkSize_pos S hS
  refine ⟨?_, ?_, ?_⟩
  · intro b
    constructor
    · intro hb
      by_cases hb7 : b < 7 * chunkSize S
      · obtain ⟨i, hi7, hlo, hhi⟩ := exists_bucket (chunkSize S) b hb7
        refine ⟨i, by unfold NUM_CHUNKS; omega, hlo, ?_⟩
        unfold chunkStop
        rw [if_neg (by unfold NUM_CHUNKS; omega)]
        omega
      · refine ⟨NUM_CHUNKS - 1, by unfold NUM_CHUNKS; omega, ?_, ?_⟩
        · unfold chunkStart NUM_CHUNKS
          omega
        · unfold chunkStop
          rw [if_pos rfl]
          omega
    · rintro ⟨i, hi, _, hhi⟩
      have := chunkStop_le S i h7 hi
      omega
  · intro i hi
    unfold chunkStart chunkStop
    by_cases h : i = NUM_CHUNKS - 1
    · rw [if_pos h, h]
      unfold NUM_CHUNKS
      omega
    · rw [if_neg h]
      have : i * chunkSize S + chunkSize S = (i + 1) * chunkSize S := by ring
      omega
  · intro i j b hi hj hij hlo hhi
    rintro ⟨hlo', hhi'⟩
    rcases Nat.lt_or_ge i j with h | h
    · have := chunkStop_lt_chunkStart S i j h7 h hj
      omega
    · have hji : j < i := by omega
      have := chunkStop_lt_chunkStart S j i h7 hji hi
      omega

/-- Witness for `chunk_ranges_partition` at `S = 16`. -/
theorem chunk_ranges_partition_witness :
    (1 ≤ 16 ∧ 7 * chunkSize 16 < 16) ∧
    (10 < 16 ↔ ∃ i, i < NUM_CHUNKS ∧ chunkStart 16 i ≤ 10 ∧ 10 ≤ chunkStop 16 i) :=
  ⟨⟨by decide, by decide⟩,
    (chunk_ranges_partition 16 (by decide) (by decide)).1 10⟩

/-- C2 . The worker must skip the network exactly when
`start + downloaded > end` (spec §4.2); the code tests `>=` (line 213).
On a one-byte chunk `[0, 0]` with an empty part file, `start + d = 0 = end`,
so the claim requires a ranged fetch of byte 0, but the code marks the
chunk `complete` with no request — byte 0 is skipped forever. -/
theorem download_chunk_skips_last_byte :
    (downloadChunkInit sampleSys2 1 0 0 50).2 = ChunkAction.completeNoRequest ∧
    ¬ ((0 : Nat) + 0 > 0) ∧
    ((dbLookup (downloadChunkInit sampleSys2 1 0 0 50).1.db 1).map
      fun e => e.chunks.map Chunk.status) = some [Status.complete] := by
  decide

/-- C6 . With `Accept-Ranges: bytes` present but `Content-Length` absent,
`createDownload` does not fail: it creates and persists a queued entry
whose `totalSize` is `NaN` and emits no `download-error`, contradicting the
spec's `MetadataMissing` handling (§7). -/
theorem create_missing_content_length_creates_entry :
    ((dbLookup (createDownload 100 "http://h/f.bin" headersNoLength
        { db := [], streams := [], store := [] }).1.db 100).map Entry.totalSize)
      = some none ∧
    ((dbLookup (createDownload 100 "http://h/f.bin" headersNoLength
        { db := [], streams := [], store := [] }).1.store 100).map Entry.totalSize)
      = some none ∧
    ((createDownload 100 "http://h/f.bin" headersNoLength
        { db := [], streams := [], store := [] }).2.all
      fun ev => match ev with
        | Event.downloadError _ _ => false
        | _ => true) = true := by
  decide

/-- C8 . `saveDb` does not perform a temp-write-then-rename: its trace on
any registry — here the empty one — is a single direct write to the store
path, not the two-step atomic replace the claim describes. -/
theorem saveDb_not_atomic_replace : ¬ specAtomicReplace (saveDbTrace []) := by
  rintro ⟨tmp, data, hne, h⟩
  simpa [saveDbTrace] using congrArg List.length h

/-- C8 (amended). Every `saveDb` writes the whole serialized registry
directly to the store file in one `writeFileSync`; no sibling temp path or
rename is involved, so an interrupted save can leave a partial file. -/
theorem saveDb_single_direct_write (db : Db) : saveDbTrace db = [FsOp.write DB_PATH db] :=
  rfl

/-- C9 . Ids come from `Date.now()`: two creates in the same millisecond
(`now = 5` twice) produce the SAME id, and the second `downloadsDb.set`
overwrites the first entry — the registry ends with one entry, holding the
second URL. -/
theorem create_same_timestamp_overwrites :
    (createDownload 5 "http://h/b"
        sampleHeaders
        (createDownload 5 "http://h/a" sampleHeaders
          { db := [], streams := [], store := [] }).1).1.db.length = 1 ∧
    ((dbLookup (createDownload 5 "http://h/b"
        sampleHeaders
        (createDownload 5 "http://h/a" sampleHeaders
          { db := [], streams := [], store := [] }).1).1.db 5).map Entry.url)
      = some "http://h/b" := by
  decide

/-- C10 . For an id absent from the registry, both `pauseDownload` and
`startOrResumeDownload` return before touching anything: the state
(registry, stream map, store file) is unchanged and no event is emitted. -/
theorem pause_resume_absent_id_noop (s : Sys) (i : Nat)
    (h : dbLookup s.db i = none) :
    pauseDownload i s = (s, []) ∧ startOrResumeDownload i s = (s, []) := by
  unfold pauseDownload startOrResumeDownload
  rw [h]
  exact ⟨rfl, rfl⟩

/-- Witness for `pause_resume_absent_id_noop` on the empty registry. -/
theorem pause_resume_absent_id_noop_witness :
    pauseDownload 7 { db := [], streams := [], store := [] }
      = ({ db := [], streams := [], store := [] }, []) :=
  (pause_resume_absent_id_noop { db := [], streams := [], store := [] } 7 rfl).1

/-- C7 . Assembly does not check part sizes: with every part file present
but empty (size 0, while each 16-byte download chunk owns 2 bytes), the
spec-side size condition fails yet `assembleFile` succeeds, producing an
empty final file. -/
theorem assemble_succeeds_despite_size_mismatch :
    specSizesMatch (mkChunksNat 16) (fun _ => some []) = false ∧
    assembleFile (mkChunksNat 16) (fun _ => some []) = Except.ok [] :=
  ⟨rfl, rfl⟩

/-- C3 . After a mid-body stream error on the only chunk of a downloading
entry, the chunk is `error` — but the entry stays `downloading` with a
null `error` field, NO event is emitted, and the supervisor's aggregation
still reports the entry as `downloading` with no error: nothing ever
surfaces the failure. -/
theorem stream_error_claim_fails :
    (onStreamError sampleSys3 1 0).2 = [] ∧
    ((dbLookup (onStreamError sampleSys3 1 0).1.db 1).map Entry.status)
      = some Status.downloading ∧
    ((dbLookup (onStreamError sampleSys3 1 0).1.db 1).map Entry.error)
      = some none ∧
    ((dbLookup (onStreamError sampleSys3 1 0).1.db 1).map
      fun e => e.chunks.map Chunk.status) = some [Status.error] ∧
    ((getAggregatedProgress (onStreamError sampleSys3 1 0).1.db).2.map Progress.status)
      = [Status.downloading] ∧
    ((getAggregatedProgress (onStreamError sampleSys3 1 0).1.db).2.map Progress.error)
      = [none] := by
  decide

lemma dbLookup_updateEntry (db : Db) (i : Nat) (f : Entry → Entry) :
    dbLookup (updateEntry db i f) i = (dbLookup db i).map f := by
  induction db with
  | nil => rfl
  | cons p rest ih =>
      obtain ⟨k, v⟩ := p
      by_cases hk : k = i
      · subst hk
        simp [updateEntry, dbLookup]
      · simp only [updateEntry, dbLookup, List.map_cons] at ih ⊢
        rw [if_neg hk]
        simp only [List.find?]
        have : (decide (k = i)) = false := by simp [hk]
        rw [this]
        exact ih

/-- C3 (amended). A mid-body stream error marks the chunk `error` with
speed 0, deregisters its streams, and persists — but the owning entry's
status and `error` field are untouched (it stays `downloading`), no event
fires, and the scheduler is not invoked; nothing later surfaces the
failure, since aggregation ignores chunk statuses and the completion check
never sees all chunks `complete`. -/
theorem stream_error_marks_chunk_only (s : Sys) (did cid : Nat) (e : Entry)
    (he : dbLookup s.db did = some e) :
    (onStreamError s did cid).2 = [] ∧
    (onStreamError s did cid).1.streams = streamsDeleteChunk s.streams did cid ∧
    (onStreamError s did cid).1.store = (onStreamError s did cid).1.db ∧
    ∃ e1, dbLookup (onStreamError s did cid).1.db did = some e1 ∧
      e1.status = e.status ∧ e1.error = e.error ∧
      e1.chunks = e.chunks.map fun c =>
        if c.id = cid then { c with status := Status.error, currentSpeed := 0 }
        else c := by
  unfold onStreamError updateChunk
  refine ⟨rfl, rfl, rfl, ?_⟩
  rw [dbLookup_updateEntry, he]
  exact ⟨_, rfl, rfl, rfl, rfl⟩

/-- Witness for `stream_error_marks_chunk_only` on `sampleSys3`. -/
theorem stream_error_marks_chunk_only_witness :
    (onStreamError sampleSys3 1 0).1.store = (onStreamError sampleSys3 1 0).1.db :=
  (stream_error_marks_chunk_only sampleSys3 1 0 sampleEntry3 rfl).2.2.1

lemma loadDbEntry_status (fs : Fs) (e : Entry) :
    (loadDbEntry fs e).status =
      if e.status = Status.downloading ∨ e.status = Status.queued then Status.queued
      else e.status := by
  obtain ⟨eid, u, fn, fp, td, ts, ds, st, cs, et, er, ch⟩ := e
  by_cases h : (st = Status.downloading ∨ st = Status.queued) <;>
    cases td <;> simp [loadDbEntry, h]

lemma loadDbEntry_chunks (fs : Fs) (e : Entry) (td : String)
    (htd : e.tempDir = some td) :
    (loadDbEntry fs e).chunks = e.chunks.map fun c =>
      let c1 := if fs.dirExists td then
                  { c with downloaded := getFilesize fs (partPath td c.id) }
                else { c with downloaded := 0 }
      if c1.status = Status.downloading then { c1 with status := Status.queued }
      else c1 := by
  obtain ⟨eid, u, fn, fp, td', ts, ds, st, cs, et, er, ch⟩ := e
  simp only at htd
  cases td' with
  | none => simp at htd
  | some td0 =>
      simp only [Option.some.injEq] at htd
      subst htd
      by_cases h : (st = Status.downloading ∨ st = Status.queued) <;>
        simp [loadDbEntry, h]

lemma loadDbEntry_size (fs : Fs) (e : Entry)
    (hwf : e.downloadedSize = (e.chunks.map Chunk.downloaded).sum) :
    (loadDbEntry fs e).downloadedSize =
      ((loadDbEntry fs e).chunks.map Chunk.downloaded).sum := by
  obtain ⟨eid, u, fn, fp, td, ts, ds, st, cs, et, er, ch⟩ := e
  cases td <;> by_cases h : (st = Status.downloading ∨ st = Status.queued) <;>
    simp_all [loadDbEntry]

/-- C4 . `loadDb`'s recovery normalization on each well-formed persisted
entry: `downloading`/`queued` become `queued`; with a temp directory that
exists on disk each chunk's `downloaded` becomes the on-disk size of
`tempDir/part_<i>` and `downloading` chunks become `queued`; with a temp
directory missing from disk every chunk's `downloaded` is zeroed; and
`downloadedSize` equals the sum of the chunks' `downloaded` afterwards. -/
theorem loadDb_normalizes (fs : Fs) (e : Entry)
    (hwf : e.downloadedSize = (e.chunks.map Chunk.downloaded).sum) :
    ((e.status = Status.downloading ∨ e.status = Status.queued) →
      (loadDbEntry fs e).status = Status.queued) ∧
    (∀ td, e.tempDir = some td →
      (fs.dirExists td = true →
        (∀ i : Nat, ((loadDbEntry fs e).chunks[i]?).map Chunk.downloaded =
            (e.chunks[i]?).map (fun c : Chunk => getFilesize fs (partPath td c.id))) ∧
        (∀ (i : Nat) (c : Chunk), e.chunks[i]? = some c → c.status = Status.downloading →
            ((loadDbEntry fs e).chunks[i]?).map Chunk.status = some Status.queued)) ∧
      (fs.dirExists td = false →
        ∀ i : Nat, ((loadDbEntry fs e).chunks[i]?).map Chunk.downloaded =
            (e.chunks[i]?).map (fun _ : Chunk => 0))) ∧
    (loadDbEntry fs e).downloadedSize =
      ((loadDbEntry fs e).chunks.map Chunk.downloaded).sum := by
  refine ⟨?_, ?_, loadDbEntry_size fs e hwf⟩
  · intro h
    rw [loadDbEntry_status, if_pos h]
  · intro td htd
    refine ⟨fun hdir => ⟨fun i => ?_, fun i c hci hcs => ?_⟩, fun hdir i => ?_⟩
    · rw [loadDbEntry_chunks fs e td htd, List.getElem?_map]
      cases hci : e.chunks[i]? with
      | none => rfl
      | some c =>
          simp only [Option.map_some']
          simp only [hdir, if_true]
          split <;> rfl
    · rw [loadDbEntry_chunks fs e td htd, List.getElem?_map, hci]
      simp only [Option.map_some']
      simp [hdir, hcs]
    · rw [loadDbEntry_chunks fs e td htd, List.getElem?_map]
      cases hci : e.chunks[i]? with
      | none => rfl
      | some c =>
          simp only [Option.map_some']
          simp only [hdir, Bool.false_eq_true, if_false]
          split <;> rfl

/-- Witness for `loadDb_normalizes` on `sampleFs`/`sampleEntry3`. -/
theorem loadDb_normalizes_witness :
    (loadDbEntry sampleFs sampleEntry3).status = Status.queued :=
  (loadDb_normalizes sampleFs sampleEntry3 (by decide)).1 (Or.inl rfl)

lemma assembleFile_ok_iff_aux (parts : Parts) (cs : List Chunk) :
    (∃ bs, assembleFile cs parts = Except.ok bs) ↔ ∀ c ∈ cs, parts c.id ≠ none := by
  induction cs with
  | nil => exact ⟨fun _ => by simp, fun _ => ⟨[], rfl⟩⟩
  | cons c rest ih =>
      constructor
      · rintro ⟨bs, hbs⟩ c1 hc1
        cases hp : parts c.id with
        | none => simp [assembleFile, hp] at hbs
        | some bytes =>
            rcases List.mem_cons.mp hc1 with h | h
            · subst h; simp [hp]
            · cases har : assembleFile rest parts with
              | error u => simp [assembleFile, hp, har] at hbs
              | ok tail => exact ih.mp ⟨tail, har⟩ c1 h
      · intro h
        cases hp : parts c.id with
        | none => exact absurd hp (h c (List.mem_cons_self c rest))
        | some bytes =>
            obtain ⟨tail, htail⟩ := ih.mpr fun c1 hc1 => h c1 (List.mem_cons_of_mem c hc1)
            exact ⟨bytes ++ tail, by simp [assembleFile, hp, htail]⟩

/-- C7 (amended). Assembly succeeds iff every part file exists (is
readable) — part sizes are never checked, so a wrong-sized part still
assembles.  On success the final file is the concatenation of the parts in
chunk-index order, the entry becomes `complete` and `tempDir` is removed
and nulled; on failure (a missing part) the entry becomes `error` with
message "Failed to assemble file." and `tempDir` is left in place. -/
theorem assembleFile_ok_iff (e : Entry) (parts : Parts) :
    ((∃ bs, assembleFile e.chunks parts = Except.ok bs) ↔
      ∀ c ∈ e.chunks, parts c.id ≠ none) ∧
    (∀ bs, assembleFile e.chunks parts = Except.ok bs →
      finishAssembly e parts =
        { entry := { e with tempDir := none, status := Status.complete, currentSpeed := 0 }
          finalFile := some bs
          tempDirRemoved := true
          events := [Event.downloadComplete e.id e.filePath] }) ∧
    (assembleFile e.chunks parts = Except.error () →
      finishAssembly e parts =
        { entry := { e with status := Status.error, error := some "Failed to assemble file." }
          finalFile := none
          tempDirRemoved := false
          events := [Event.downloadError (toString e.id) "Failed to assemble file."] }) := by
  refine ⟨assembleFile_ok_iff_aux parts e.chunks, ?_, ?_⟩
  · intro bs hbs
    unfold finishAssembly
    rw [hbs]
  · intro herr
    unfold finishAssembly
    rw [herr]

/-- Witness for `assembleFile_ok_iff`: a fully fetched 16-byte download
assembles to its parts in order and the entry completes. -/
theorem assembleFile_ok_iff_witness :
    finishAssembly sampleEntry7 sampleParts7 =
      { entry := { sampleEntry7 with
                   tempDir := none
                   status := Status.complete
                   currentSpeed := 0 }
        finalFile := some [0, 0, 1, 1, 2, 2, 3, 3, 4, 4, 5, 5, 6, 6, 7, 7]
        tempDirRemoved := true
        events := [Event.downloadComplete sampleEntry7.id sampleEntry7.filePath] } :=
  (assembleFile_ok_iff sampleEntry7 sampleParts7).2.1 _ rfl

lemma dbLookup_cons_pos (k : Nat) (v : Entry) (rest : Db) :
    dbLookup ((k, v) :: rest) k = some v := by
  unfold dbLookup
  rw [List.find?_cons_of_pos _ (by simp)]
  rfl

lemma dbLookup_cons_neg (k : Nat) (v : Entry) (rest : Db) (i : Nat) (h : k ≠ i) :
    dbLookup ((k, v) :: rest) i = dbLookup rest i := by
  unfold dbLookup
  rw [List.find?_cons_of_neg _ (by simp [h])]

lemma any_eq_false_of_lookup_none (db : Db) (i : Nat) (h : dbLookup db i = none) :
    db.any (fun p => decide (p.1 = i)) = false := by
  induction db with
  | nil => rfl
  | cons p rest ih =>
      obtain ⟨k, v⟩ := p
      by_cases hk : k = i
      · subst hk
        rw [dbLookup_cons_pos] at h
        exact absurd h (by simp)
      · rw [dbLookup_cons_neg _ _ _ _ hk] at h
        simp only [List.any_cons, ih h, Bool.or_false]
        simp [hk]

lemma dbSet_of_absent (db : Db) (i : Nat) (e : Entry) (h : dbLookup db i = none) :
    dbSet db i e = db ++ [(i, e)] := by
  unfold dbSet
  rw [any_eq_false_of_lookup_none db i h]
  rfl

lemma dbLookup_append_right (db : Db) (i : Nat) (e : Entry)
    (h : dbLookup db i = none) :
    dbLookup (db ++ [(i, e)]) i = some e := by
  induction db with
  | nil => exact dbLookup_cons_pos i e []
  | cons p rest ih =>
      obtain ⟨k, v⟩ := p
      by_cases hk : k = i
      · subst hk
        rw [dbLookup_cons_pos] at h
        exact absurd h (by simp)
      · rw [dbLookup_cons_neg _ _ _ _ hk] at h
        rw [List.cons_append, dbLookup_cons_neg _ _ _ _ hk]
        exact ih h

lemma dbLookup_append_left (db : Db) (q : Nat × Entry) (i : Nat) (hne : q.1 ≠ i) :
    dbLookup (db ++ [q]) i = dbLookup db i := by
  induction db with
  | nil =>
      obtain ⟨k, v⟩ := q
      rw [List.nil_append, dbLookup_cons_neg _ _ _ _ hne]
  | cons p rest ih =>
      obtain ⟨k, v⟩ := p
      by_cases hk : k = i
      · subst hk
        rw [List.cons_append, dbLookup_cons_pos, dbLookup_cons_pos]
      · rw [List.cons_append, dbLookup_cons_neg _ _ _ _ hk,
          dbLookup_cons_neg _ _ _ _ hk]
        exact ih

lemma promote_lookup_erase (db : Db) (k i : Nat) :
    (dbLookup (promote db k).1 i).map eraseStatus =
      (dbLookup db i).map eraseStatus := by
  induction db generalizing k with
  | nil => rfl
  | cons p rest ih =>
      obtain ⟨j, e⟩ := p
      simp only [promote]
      by_cases hq : e.status = Status.queued
      · rw [if_pos hq]
        by_cases hk : k ≤ 1
        · rw [if_pos hk]
          by_cases hj : j = i
          · subst hj
            rw [dbLookup_cons_pos, dbLookup_cons_pos]
            rfl
          · rw [dbLookup_cons_neg _ _ _ _ hj, dbLookup_cons_neg _ _ _ _ hj]
        · rw [if_neg hk]
          by_cases hj : j = i
          · subst hj
            rw [dbLookup_cons_pos, dbLookup_cons_pos]
            rfl
          · rw [dbLookup_cons_neg _ _ _ _ hj, dbLookup_cons_neg _ _ _ _ hj]
            exact ih (k - 1)
      · rw [if_neg hq]
        by_cases hj : j = i
        · subst hj
          rw [dbLookup_cons_pos, dbLookup_cons_pos]
        · rw [dbLookup_cons_neg _ _ _ _ hj, dbLookup_cons_neg _ _ _ _ hj]
          exact ih k

lemma tryStart_lookup_erase (s : Sys) (i : Nat) :
    (dbLookup (tryToStartQueuedDownloads s).1.db i).map eraseStatus =
      (dbLookup s.db i).map eraseStatus := by
  unfold tryToStartQueuedDownloads
  by_cases hc : MAX_CONCURRENT_DOWNLOADS ≤ countDownloading s.db
  · rw [if_pos hc]
  · rw [if_neg hc]
    exact promote_lookup_erase s.db _ i

lemma createDownload_lookup_erase (n : Nat) (u : String) (hd : HeadHeaders)
    (har : hd.acceptRanges = some "bytes") (s : Sys) (i : Nat) :
    (dbLookup (createDownload n u hd s).1.db i).map eraseStatus =
      (dbLookup (dbSet s.db n (createdEntry n u hd)) i).map eraseStatus := by
  unfold createDownload
  rw [if_neg (by simp [har])]
  exact tryStart_lookup_erase
    { db := dbSet s.db n (createdEntry n u hd), streams := s.streams,
      store := dbSet s.db n (createdEntry n u hd) } i

/-- C9 (amended). Ids are `Date.now()` timestamps.  Creates at strictly
increasing clock values yield distinct, increasing ids and never overwrite
an existing entry: after two such creates both entries are present under
their own ids with their own URLs.  (Two creates within the same
millisecond share one id and the later one overwrites the earlier, see the
counterexample.) -/
theorem create_distinct_timestamps (s : Sys) (n1 n2 : Nat) (u1 u2 : String)
    (hd : HeadHeaders) (hlt : n1 < n2) (har : hd.acceptRanges = some "bytes")
    (h1 : dbLookup s.db n1 = none) (h2 : dbLookup s.db n2 = none) :
    ((dbLookup (createDownload n2 u2 hd
        (createDownload n1 u1 hd s).1).1.db n1).map fun e => (e.id, e.url))
      = some (n1, u1) ∧
    ((dbLookup (createDownload n2 u2 hd
        (createDownload n1 u1 hd s).1).1.db n2).map fun e => (e.id, e.url))
      = some (n2, u2) ∧
    n1 ≠ n2 := by
  have hne : n1 ≠ n2 := Nat.ne_of_lt hlt
  have hset1 : dbSet s.db n1 (createdEntry n1 u1 hd) =
      s.db ++ [(n1, createdEntry n1 u1 hd)] := dbSet_of_absent _ _ _ h1
  have hs1n1 : (dbLookup (createDownload n1 u1 hd s).1.db n1).map eraseStatus
      = some (eraseStatus (createdEntry n1 u1 hd)) := by
    rw [createDownload_lookup_erase n1 u1 hd har s n1, hset1,
      dbLookup_append_right _ _ _ h1]
    rfl
  have hs1n2 : dbLookup (createDownload n1 u1 hd s).1.db n2 = none := by
    have h := createDownload_lookup_erase n1 u1 hd har s n2
    rw [hset1, dbLookup_append_left _ _ _ hne, h2] at h
    exact Option.map_eq_none'.mp h
  have hset2 : dbSet (createDownload n1 u1 hd s).1.db n2 (createdEntry n2 u2 hd) =
      (createDownload n1 u1 hd s).1.db ++ [(n2, createdEntry n2 u2 hd)] :=
    dbSet_of_absent _ _ _ hs1n2
  have hfin2 : (dbLookup (createDownload n2 u2 hd
      (createDownload n1 u1 hd s).1).1.db n2).map eraseStatus
      = some (eraseStatus (createdEntry n2 u2 hd)) := by
    rw [createDownload_lookup_erase n2 u2 hd har _ n2, hset2,
      dbLookup_append_right _ _ _ hs1n2]
    rfl
  have hfin1 : (dbLookup (createDownload n2 u2 hd
      (createDownload n1 u1 hd s).1).1.db n1).map eraseStatus
      = some (eraseStatus (createdEntry n1 u1 hd)) := by
    rw [createDownload_lookup_erase n2 u2 hd har _ n1, hset2,
      dbLookup_append_left _ _ _ (fun hq => hne hq.symm), hs1n1]
  refine ⟨?_, ?_, hne⟩
  · obtain ⟨a, ha, hae⟩ := Option.map_eq_some'.mp hfin1
    have hid : a.id = n1 := congrArg Entry.id hae
    have hurl : a.url = u1 := congrArg Entry.url hae
    rw [ha]
    simp [hid, hurl]
  · obtain ⟨a, ha, hae⟩ := Option.map_eq_some'.mp hfin2
    have hid : a.id = n2 := congrArg Entry.id hae
    have hurl : a.url = u2 := congrArg Entry.url hae
    rw [ha]
    simp [hid, hurl]

/-- Witness for `create_distinct_timestamps` at timestamps 5 < 6 on the
empty registry. -/
theorem create_distinct_timestamps_witness :
    ((dbLookup (createDownload 6 "http://h/b" sampleHeaders
        (createDownload 5 "http://h/a" sampleHeaders
          { db := [], streams := [], store := [] }).1).1.db 5).map
      fun e => (e.id, e.url)) = some (5, "http://h/a") :=
  (create_distinct_timestamps { db := [], streams := [], store := [] }
    5 6 "http://h/a" "http://h/b" sampleHeaders (by decide) rfl rfl rfl).1

lemma countDownloading_cons (p : Nat × Entry) (db : Db) :
    countDownloading (p :: db) =
      (if p.2.status = Status.downloading then 1 else 0) + countDownloading db := by
  unfold countDownloading
  rw [List.filter_cons]
  by_cases h : p.2.status = Status.downloading
  · simp [h]
    omega
  · simp [h]

lemma countDownloading_map_le (db : Db) (f : Nat × Entry → Nat × Entry)
    (h : ∀ p, (f p).2.status = Status.downloading → p.2.status = Status.downloading) :
    countDownloading (db.map f) ≤ countDownloading db := by
  induction db with
  | nil => exact Nat.le_refl _
  | cons p rest ih =>
      rw [List.map_cons, countDownloading_cons, countDownloading_cons]
      by_cases h1 : (f p).2.status = Status.downloading
      · rw [if_pos h1, if_pos (h p h1)]
        omega
      · rw [if_neg h1]
        by_cases h2 : p.2.status = Status.downloading <;> simp [h2] <;> omega

lemma countDownloading_append (a b : Db) :
    countDownloading (a ++ b) = countDownloading a + countDownloading b := by
  unfold countDownloading
  rw [List.filter_append, List.length_append]

lemma count_updateEntry_le (db : Db) (i : Nat) (f : Entry → Entry)
    (h : ∀ v, (f v).status = Status.downloading → v.status = Status.downloading) :
    countDownloading (updateEntry db i f) ≤ countDownloading db := by
  apply countDownloading_map_le
  intro p hp
  by_cases h1 : p.1 = i
  · rw [if_pos h1] at hp
    exact h p.2 hp
  · rw [if_neg h1] at hp
    exact hp

lemma count_updateChunk_le (db : Db) (did cid : Nat) (f : Chunk → Chunk) :
    countDownloading (updateChunk db did cid f) ≤ countDownloading db := by
  unfold updateChunk
  exact count_updateEntry_le db did _ (fun v hv => hv)

lemma count_dbSet_le (db : Db) (i : Nat) (e : Entry)
    (he : ¬ e.status = Status.downloading) :
    countDownloading (dbSet db i e) ≤ countDownloading db := by
  unfold dbSet
  by_cases h : db.any (fun p => decide (p.1 = i)) = true
  · rw [if_pos h]
    apply countDownloading_map_le
    intro p hp
    by_cases h1 : p.1 = i
    · rw [if_pos h1] at hp
      exact absurd hp he
    · rw [if_neg h1] at hp
      exact hp
  · rw [if_neg h]
    rw [countDownloading_append, countDownloading_cons]
    simp [he, countDownloading]

lemma promote_count (db : Db) : ∀ k, 1 ≤ k →
    countDownloading (promote db k).1 ≤ countDownloading db + k := by
  induction db with
  | nil =>
      intro k hk
      simp [promote, countDownloading]
  | cons p rest ih =>
      intro k hk
      obtain ⟨j, e⟩ := p
      simp only [promote]
      by_cases hq : e.status = Status.queued
      · rw [if_pos hq]
        by_cases hk1 : k ≤ 1
        · rw [if_pos hk1]
          rw [countDownloading_cons, countDownloading_cons]
          simp [hq]
          omega
        · rw [if_neg hk1]
          rw [countDownloading_cons, countDownloading_cons]
          have h1 := ih (k - 1) (by omega)
          simp [hq]
          omega
      · rw [if_neg hq]
        rw [countDownloading_cons, countDownloading_cons]
        have h1 := ih k hk
        split <;> omega

lemma tryStart_count (s : Sys)
    (h : countDownloading s.db ≤ MAX_CONCURRENT_DOWNLOADS) :
    countDownloading (tryToStartQueuedDownloads s).1.db ≤ MAX_CONCURRENT_DOWNLOADS := by
  unfold tryToStartQueuedDownloads
  by_cases hc : MAX_CONCURRENT_DOWNLOADS ≤ countDownloading s.db
  · rw [if_pos hc]
    exact h
  · rw [if_neg hc]
    have h1 : 1 ≤ MAX_CONCURRENT_DOWNLOADS - countDownloading s.db := by
      unfold MAX_CONCURRENT_DOWNLOADS at hc ⊢
      omega
    have h2 := promote_count s.db (MAX_CONCURRENT_DOWNLOADS - countDownloading s.db) h1
    show countDownloading
      (promote s.db (MAX_CONCURRENT_DOWNLOADS - countDownloading s.db)).1
        ≤ MAX_CONCURRENT_DOWNLOADS
    unfold MAX_CONCURRENT_DOWNLOADS at *
    omega

lemma tryStart_pair_count (db1 : Db) (st : Streams)
    (h1 : countDownloading db1 ≤ MAX_CONCURRENT_DOWNLOADS) :
    countDownloading (tryToStartQueuedDownloads
      { db := db1, streams := st, store := db1 }).1.db ≤ MAX_CONCURRENT_DOWNLOADS :=
  tryStart_count _ h1

lemma loadDbEntry_ne_downloading (fs : Fs) (e : Entry) :
    ¬ (loadDbEntry fs e).status = Status.downloading := by
  rw [loadDbEntry_status]
  by_cases h : (e.status = Status.downloading ∨ e.status = Status.queued)
  · rw [if_pos h]
    simp
  · rw [if_neg h]
    intro hx
    exact h (Or.inl hx)

lemma countDownloading_loadDb (fs : Fs) (entries : List (Nat × Entry)) :
    countDownloading (loadDb fs entries) = 0 := by
  induction entries with
  | nil => rfl
  | cons p rest ih =>
      unfold loadDb at ih ⊢
      rw [List.map_cons, countDownloading_cons, ih]
      simp [loadDbEntry_ne_downloading fs p.2]

lemma count_checkIfCompleteSync_le (s : Sys) (did : Nat) :
    countDownloading (checkIfCompleteSync s did).db ≤ countDownloading s.db := by
  unfold checkIfCompleteSync
  cases h : dbLookup s.db did with
  | none => exact Nat.le_refl _
  | some e =>
      dsimp only
      split
      · exact count_updateEntry_le s.db did
          (fun e => { e with status := Status.assembling })
          (fun v hv => absurd hv (by simp))
      · exact Nat.le_refl _

lemma finishAssembly_status_ne (e : Entry) (parts : Parts) :
    ¬ (finishAssembly e parts).entry.status = Status.downloading := by
  unfold finishAssembly
  cases assembleFile e.chunks parts <;> simp

/-- C5 . In every reachable engine state at most
`MAX_CONCURRENT_DOWNLOADS = 3` entries are `downloading`: the scheduler
promotes at most `3 − active` queued entries per invocation and returns
at once when no slot is free, and no other transition moves an entry into
`downloading`. -/
theorem downloading_bounded (s : Sys) (h : Reachable s) :
    countDownloading s.db ≤ MAX_CONCURRENT_DOWNLOADS := by
  induction h with
  | boot entries fs =>
      apply tryStart_count
      show countDownloading (loadDb fs entries) ≤ MAX_CONCURRENT_DOWNLOADS
      rw [countDownloading_loadDb]
      exact Nat.zero_le _
  | step s o hs ih =>
      cases o with
      | createCmd n u hd =>
          show countDownloading (createDownload n u hd s).1.db ≤ _
          unfold createDownload
          by_cases har : hd.acceptRanges ≠ some "bytes"
          · rw [if_pos har]
            exact ih
          · rw [if_neg har]
            exact tryStart_pair_count _ _
              (le_trans (count_dbSet_le s.db n (createdEntry n u hd) (by simp [createdEntry])) ih)
      | pauseCmd i =>
          show countDownloading (pauseDownload i s).1.db ≤ _
          unfold pauseDownload
          cases h1 : dbLookup s.db i with
          | none => exact ih
          | some e =>
            dsimp only
            by_cases h2 : (e.status ≠ Status.downloading ∧ e.status ≠ Status.queued)
            · rw [if_pos h2]
              exact ih
            · rw [if_neg h2]
              exact tryStart_pair_count _ _
                (le_trans (count_dbSet_le s.db i _ (by simp)) ih)
      | resumeCmd i =>
          show countDownloading (startOrResumeDownload i s).1.db ≤ _
          unfold startOrResumeDownload
          cases h1 : dbLookup s.db i with
          | none => exact ih
          | some e =>
            dsimp only
            exact tryStart_pair_count _ _
              (le_trans (count_dbSet_le s.db i _ (by simp)) ih)
      | chunkInit d c ps n =>
          show countDownloading (downloadChunkInit s d c ps n).1.db ≤ _
          unfold downloadChunkInit
          cases h1 : dbLookup s.db d with
          | none => exact ih
          | some e =>
            dsimp only
            by_cases h2 : e.status ≠ Status.downloading
            · rw [if_pos h2]
              exact ih
            · rw [if_neg h2]
              cases h3 : e.chunks.find? (fun c0 => decide (c0.id = c)) with
              | none => exact ih
              | some c0 =>
                dsimp only
                split
                · exact le_trans (count_checkIfCompleteSync_le _ _)
                    (le_trans (count_updateChunk_le s.db d c _) ih)
                · exact le_trans (count_updateChunk_le s.db d c _) ih
      | requestError d c m =>
          show countDownloading (onChunkRequestError s d c m).1.db ≤ _
          unfold onChunkRequestError
          exact tryStart_pair_count _ _
            (le_trans (count_updateEntry_le s.db d _ (fun v hv => by simp at hv)) ih)
      | streamEnd d c =>
          show countDownloading (onStreamEnd s d c).1.db ≤ _
          unfold onStreamEnd
          cases h1 : dbLookup s.db d with
          | none => exact ih
          | some e =>
            dsimp only
            by_cases h2 : e.status = Status.downloading
            · rw [if_pos h2]
              exact le_trans (count_checkIfCompleteSync_le _ _)
                (le_trans (count_updateChunk_le s.db d c _) ih)
            · rw [if_neg h2]
              exact ih
      | streamError d c =>
          show countDownloading (onStreamError s d c).1.db ≤ _
          unfold onStreamError
          exact le_trans (count_updateChunk_le s.db d c _) ih
      | assemblyFinished d parts =>
          show countDownloading (onAssemblyFinished s d parts).1.db ≤ _
          unfold onAssemblyFinished
          cases h1 : dbLookup s.db d with
          | none => exact ih
          | some e =>
            dsimp only
            exact tryStart_pair_count _ _
              (le_trans (count_dbSet_le s.db d _ (finishAssembly_status_ne e parts)) ih)
      | resumeAll =>
          show countDownloading (resumeAllDownloads s).1.db ≤ _
          unfold resumeAllDownloads
          refine tryStart_pair_count _ _ (le_trans (countDownloading_map_le s.db _ ?_) ih)
          intro p hp
          by_cases hps : p.2.status = Status.paused
          · rw [if_pos hps] at hp
            simp at hp
          · rw [if_neg hps] at hp
            exact hp
      | schedule =>
          exact tryStart_count s ih

/-- Witness for `downloading_bounded` at the boot state of an empty store
on an empty filesystem. -/
theorem downloading_bounded_witness :
    countDownloading ({ db := [], streams := [], store := [] } : Sys).db
      ≤ MAX_CONCURRENT_DOWNLOADS :=
  downloading_bounded { db := [], streams := [], store := [] }
    (Reachable.boot [] { dirExists := fun _ => false, fileSize := fun _ => none })

end Dl
